import Mathlib

/-
Verification development for the per-target IPMI connection pool of the
datacenter-api repository.

The registry (`ClientSet`, `clientFactory`, `ClientSet.Get`, `ClientSet.Put`)
is embedded from src/pool.go.  The bounded per-target pool itself is provided
by the external silenceper/pool library, whose source is not part of this
repository; its behaviour (acquire, release, idle-timeout eviction, shutdown)
is modelled from the specification, parameterised by the close callback that
src/pool.go configures.  Machine time is modelled as natural-number
nanoseconds, matching Go durations (15 * time.Second = 15000000000 ns).
-/

namespace DatacenterPool

/-- An ipmi.Client handle (opaque in the pool's contract); identified by an
allocation id so that distinct factory products are distinct objects. -/
structure IpmiClient where
  id : Nat
deriving DecidableEq

/-- A Go `interface\x7b\x7d` value as stored in the pool: either a `*ipmi.Client`
(the only thing the factory in src/pool.go ever returns on success) or some
other runtime value (present in the type so that the `v.(*ipmi.Client)`
assertion of src/pool.go line 83 has a failure branch to reason about). -/
inductive GoValue where
  | client (c : IpmiClient)
  | other (n : Nat)
deriving DecidableEq

/-- The error values that can flow out of the pool and registry.
`unknownHostname h` is the spec's UnknownTargetError, produced at
src/pool.go line 24 as fmt.Errorf with the hostname.  `connectErr` carries a
message from ipmi.NewClient or Client.Connect.  `poolClosed` and
`poolExhausted` are the spec's PoolClosedError and PoolExhaustedError.
`wrapped t e` represents an error `e` wrapped with target context `t`; the
spec requires it, and no code path of src/pool.go produces it. -/
inductive Err where
  | unknownHostname (hostname : String)
  | connectErr (msg : String)
  | poolClosed
  | poolExhausted
  | wrapped (target : String) (e : Err)
deriving DecidableEq

/-- True exactly on errors that carry target context. -/
def Err.isWrapped : Err → Bool
  | .wrapped _ _ => true
  | _ => false

/-- Per-host connection data from the TOML config (the `Host` table). -/
structure HostData where
  address : String
deriving DecidableEq

/-- The configuration relevant to the pool: the host table and the shared
IPMI credentials, from the `Config` struct of the main package. -/
structure Config where
  hosts : List (String × HostData)
  username : String
  password : String
deriving DecidableEq

/-- Association-list lookup, modelling Go map indexing `m[k]`. -/
def assocLookup {α : Type} : List (String × α) → String → Option α
  | [], _ => none
  | (k, v) :: rest, h => if k = h then some v else assocLookup rest h

/-- The external ipmi library surface used by `clientFactory`:
`ipmi.NewClient` and `Client.Connect`.  Both may fail with a message. -/
structure IpmiEnv where
  newClient : String → Nat → String → String → Except String IpmiClient
  connect : IpmiClient → Except String Unit

instance : DecidableEq (Except Err GoValue) := fun a b =>
  match a, b with
  | .ok x, .ok y =>
    if h : x = y then isTrue (by rw [h]) else isFalse (fun c => h (Except.ok.inj c))
  | .error x, .error y =>
    if h : x = y then isTrue (by rw [h]) else isFalse (fun c => h (Except.error.inj c))
  | .ok _, .error _ => isFalse (fun c => Except.noConfusion c)
  | .error _, .ok _ => isFalse (fun c => Except.noConfusion c)

/-- The session factory of src/pool.go lines 20-38: look the hostname up in
the config (returning the unknown-hostname error when absent), then build a
client on port 623 with the configured credentials and connect it.  Any
NewClient or Connect failure propagates as a connect error. -/
def clientFactory (env : IpmiEnv) (cfg : Config) (hostname : String) : Except Err GoValue :=
  match assocLookup cfg.hosts hostname with
  | none => .error (.unknownHostname hostname)
  | some data =>
    match env.newClient data.address 623 cfg.username cfg.password with
    | .error e => .error (.connectErr e)
    | .ok client =>
      match env.connect client with
      | .error e => .error (.connectErr e)
      | .ok _ => .ok (.client client)

/-- The close callback configured for a pool.  src/pool.go line 64 configures
`noop` (a function that returns nil without touching the client; the real
close is commented out at line 65).  `realClose` is the callback the spec
assumes, which actually closes the session. -/
inductive CloseFn where
  | noop
  | realClose
deriving DecidableEq

/-- Modelled from the spec: the state of one bounded session pool (the
silenceper/pool channel pool configured in src/pool.go; the library's source
is not part of this repository).  `idle` holds idle sessions with their idle
deadlines, `checkedOut` counts sessions held by callers, `closed` is set by
shutdown.  `factoryCalls` counts factory invocations, `closeCalls` logs every
value passed to the configured close callback, and `closedSessions` logs the
sessions the callback actually closed (so a `noop` callback never extends
it). -/
structure PoolState where
  capacity : Nat
  idleTimeout : Nat
  closeFn : CloseFn
  idle : List (GoValue × Nat)
  checkedOut : Nat
  closed : Bool
  factoryCalls : Nat
  closeCalls : List GoValue
  closedSessions : List GoValue
deriving DecidableEq

/-- Effect of invoking the configured close callback on a list of sessions:
only `realClose` actually closes them. -/
def applyClose (cf : CloseFn) (closedSessions : List GoValue) (vs : List GoValue) : List GoValue :=
  match cf with
  | .noop => closedSessions
  | .realClose => closedSessions ++ vs

/-- A pool with no sessions, as produced by pool creation with InitialCap 0
(no eager factory calls). -/
def emptyPool (capacity idleTimeout : Nat) (cf : CloseFn) : PoolState :=
  { capacity := capacity, idleTimeout := idleTimeout, closeFn := cf,
    idle := [], checkedOut := 0, closed := false, factoryCalls := 0,
    closeCalls := [], closedSessions := [] }

/-- First phase of acquiring from the pool, up to (but not including) a
factory invocation. -/
inductive Phase1 where
  | ready (r : Except Err GoValue)
  | needFactory
deriving DecidableEq

/-- The idle sessions whose deadline has not yet elapsed at `now`. -/
def liveIdle (p : PoolState) (now : Nat) : List (GoValue × Nat) :=
  p.idle.filter (fun e => decide (now < e.2))

/-- The idle sessions whose deadline has elapsed at `now`. -/
def expiredIdle (p : PoolState) (now : Nat) : List (GoValue × Nat) :=
  p.idle.filter (fun e => decide (e.2 ≤ now))

/-- Lazy eviction: expired idle sessions are passed to the configured close
callback and discarded; the surviving idle sessions remain. -/
def evictExpired (p : PoolState) (now : Nat) : PoolState :=
  { p with idle := liveIdle p now,
           closeCalls := p.closeCalls ++ (expiredIdle p now).map Prod.fst,
           closedSessions :=
             applyClose p.closeFn p.closedSessions ((expiredIdle p now).map Prod.fst) }

/-- Modelled from the spec: the lock-protected part of pool `Acquire`.
A closed pool fails with PoolClosedError.  Otherwise idle sessions whose
deadline has elapsed are lazily evicted (passed to the configured close
callback and discarded, decrementing the count), a surviving idle session is
handed out, and when none survives either the factory is required
(`needFactory`, permitted only while the session count is below capacity) or
the pool is exhausted.  Blocking-with-timeout at capacity is modelled by the
immediate PoolExhaustedError outcome, since in a sequential trace no
concurrent release can arrive while the caller waits. -/
def PoolState.getPhase1 (p : PoolState) (now : Nat) : Phase1 × PoolState :=
  if p.closed then (.ready (.error .poolClosed), p)
  else
    match liveIdle p now with
    | entry :: rest =>
        (.ready (.ok entry.1),
         { evictExpired p now with idle := rest, checkedOut := p.checkedOut + 1 })
    | [] =>
        if p.checkedOut < p.capacity then (.needFactory, evictExpired p now)
        else (.ready (.error .poolExhausted), evictExpired p now)

/-- Modelled from the spec: completion of pool `Acquire` with the factory's
result.  A success is checked out; a failure propagates unchanged with no
internal retry.  Either way the factory was invoked once. -/
def PoolState.getPhase2 (p : PoolState) (fr : Except Err GoValue) : Except Err GoValue × PoolState :=
  match fr with
  | .error e => (.error e, { p with factoryCalls := p.factoryCalls + 1 })
  | .ok v => (.ok v, { p with factoryCalls := p.factoryCalls + 1, checkedOut := p.checkedOut + 1 })

/-- Modelled from the spec: pool `Acquire`.  The factory is given the current
invocation count so that successive products can be distinguished. -/
def PoolState.get (p : PoolState) (f : Nat → Except Err GoValue) (now : Nat) :
    Except Err GoValue × PoolState :=
  match p.getPhase1 now with
  | (.ready r, p1) => (r, p1)
  | (.needFactory, p1) => p1.getPhase2 (f p1.factoryCalls)

/-- Modelled from the spec: pool `Release`.  A release with no session checked
out is a programming error, detected and ignored.  On a closed pool the
session is closed immediately instead of going idle.  Otherwise the session
becomes idle with deadline `now + idleTimeout`. -/
def PoolState.put (p : PoolState) (v : GoValue) (now : Nat) : PoolState :=
  if p.checkedOut = 0 then p
  else if p.closed then
    { p with checkedOut := p.checkedOut - 1,
             closeCalls := p.closeCalls ++ [v],
             closedSessions := p.closedSessions ++ [v] }
  else
    { p with checkedOut := p.checkedOut - 1,
             idle := p.idle ++ [(v, now + p.idleTimeout)] }

/-- Modelled from the spec: pool shutdown (absent from src/; the spec's words
are that shutdown closes all currently idle sessions and marks the pool as no
longer accepting acquisitions). -/
def PoolState.shutdown (p : PoolState) : PoolState :=
  { p with closed := true, idle := [],
           closeCalls := p.closeCalls ++ p.idle.map Prod.fst,
           closedSessions := p.closedSessions ++ p.idle.map Prod.fst }

/-- One operation on a single pool. -/
inductive PoolOp where
  | acquire (f : Nat → Except Err GoValue) (now : Nat)
  | release (v : GoValue) (now : Nat)
  | shutdown

/-- Apply one operation to a pool, keeping only the state. -/
def PoolState.applyOp (p : PoolState) : PoolOp → PoolState
  | .acquire f now => (p.get f now).2
  | .release v now => p.put v now
  | .shutdown => p.shutdown

/-- Run a sequence of pool operations. -/
def runPool (p : PoolState) : List PoolOp → PoolState
  | [] => p
  | op :: ops => runPool (p.applyOp op) ops

/-- Total number of sessions the pool accounts for: checked out plus idle. -/
def poolCount (p : PoolState) : Nat := p.checkedOut + p.idle.length

/-- The idle timeout configured at src/pool.go line 66: 15 * time.Second in
nanoseconds. -/
def idleTimeoutNs : Nat := 15 * 1000000000

/-- The pool that `ClientSet.Get` creates for a hostname, from the poolConfig
at src/pool.go lines 59-67: InitialCap 0 (no sessions yet), MaxIdle 1 and
MaxCap 1 (capacity 1), the no-op Close callback of line 64, IdleTimeout 15s.
Modelled from the spec in one respect: silenceper NewChannelPool validates
this fixed config successfully and, with InitialCap 0, invokes no factory, so
creation is modelled as total. -/
def freshRegistryPool : PoolState := emptyPool 1 idleTimeoutNs CloseFn.noop

/-- The ClientHandle of src/pool.go lines 47-51: the embedded client plus the
back-reference to the owning pool.  The pool pointer is modelled by the
registry key under which the pool is stored. -/
structure ClientHandle where
  client : IpmiClient
  poolHost : String
deriving DecidableEq

/-- Outcome of `ClientSet.Get`: a handle, an error, or a runtime panic of the
`v.(*ipmi.Client)` type assertion at src/pool.go line 83. -/
inductive RegOutcome where
  | ok (handle : ClientHandle)
  | err (e : Err)
  | panicked
deriving DecidableEq

/-- The ClientSet of src/pool.go lines 13-18: the config and the map from
hostname to pool (the mutex is represented by the atomicity of
`ClientSet.Get` in the sequential semantics, and explicitly in the
interleaved semantics below). -/
structure ClientSet where
  cfg : Config
  pools : List (String × PoolState)
deriving DecidableEq

/-- NewClientSet of src/pool.go lines 40-45: empty pool map. -/
def NewClientSet (cfg : Config) : ClientSet := ⟨cfg, []⟩

/-- The lookup-or-create step of `ClientSet.Get` (src/pool.go lines 57-76):
find the hostname's pool, or create a fresh one and store it.  Returns the
pool, the updated map, and whether a pool was created. -/
def lookupOrCreate (pools : List (String × PoolState)) (hostname : String) :
    PoolState × List (String × PoolState) × Bool :=
  match assocLookup pools hostname with
  | some p => (p, pools, false)
  | none => (freshRegistryPool, (hostname, freshRegistryPool) :: pools, true)

/-- Write an updated pool state back under its key (Go mutates the pool
through the stored pointer; the functional model rewrites the map entry). -/
def setPool (pools : List (String × PoolState)) (hostname : String) (p : PoolState) :
    List (String × PoolState) :=
  pools.map (fun e => if e.1 = hostname then (hostname, p) else e)

/-- The type assertion `v.(*ipmi.Client)` of src/pool.go line 83: builds the
handle when the pooled value is a client, panics otherwise. -/
def castClient (v : GoValue) (hostname : String) : RegOutcome :=
  match v with
  | .client c => .ok ⟨c, hostname⟩
  | .other _ => .panicked

/-- Map a pool acquire result to a registry outcome: errors are returned
unchanged (src/pool.go lines 78-81), successes go through the type
assertion. -/
def outcomeOf (r : Except Err GoValue) (hostname : String) : RegOutcome :=
  match r with
  | .error e => .err e
  | .ok v => castClient v hostname

/-- ClientSet.Get of src/pool.go lines 53-84, as one atomic step (the method
body runs entirely under cs.mu).  Lookup-or-create the hostname's pool, then
acquire from it, invoking `clientFactory` if the pool needs a new session;
any pool or factory error is returned unchanged. -/
def ClientSet.Get (env : IpmiEnv) (cs : ClientSet) (hostname : String) (now : Nat) :
    RegOutcome × ClientSet :=
  match ((lookupOrCreate cs.pools hostname).1).getPhase1 now with
  | (.ready r, p1) =>
    (outcomeOf r hostname,
     ⟨cs.cfg, setPool (lookupOrCreate cs.pools hostname).2.1 hostname p1⟩)
  | (.needFactory, p1) =>
    (outcomeOf (p1.getPhase2 (clientFactory env cs.cfg hostname)).1 hostname,
     ⟨cs.cfg, setPool (lookupOrCreate cs.pools hostname).2.1 hostname
        (p1.getPhase2 (clientFactory env cs.cfg hostname)).2⟩)

/-- ClientSet.Put of src/pool.go lines 86-88: forward the embedded client to
the owning pool's Put.  A handle always refers to a stored pool; a missing
key leaves the registry unchanged. -/
def ClientSet.Put (cs : ClientSet) (handle : ClientHandle) (now : Nat) : ClientSet :=
  match assocLookup cs.pools handle.poolHost with
  | none => cs
  | some p =>
    { cs with pools := setPool cs.pools handle.poolHost (p.put (.client handle.client) now) }

/-- One registry-level operation. -/
inductive CSOp where
  | get (hostname : String) (now : Nat)
  | put (handle : ClientHandle) (now : Nat)

/-- Apply one registry operation, keeping only the state. -/
def csApply (env : IpmiEnv) (cs : ClientSet) : CSOp → ClientSet
  | .get hostname now => (ClientSet.Get env cs hostname now).2
  | .put handle now => cs.Put handle now

/-- Run a sequence of registry operations. -/
def runCS (env : IpmiEnv) (cs : ClientSet) : List CSOp → ClientSet
  | [] => cs
  | op :: ops => runCS env (csApply env cs op) ops

/-
Interleaved semantics of `ClientSet.Get` for two concurrent callers.  The
method body of src/pool.go lines 53-84 takes cs.mu on entry and releases it
on return (defer), so the lock is held across the pool acquire, including the
factory's network I/O.  A thread's Get is split at its only long-running
point, the factory call: `start` (before Lock), `locked` (holding the lock,
about to run the pure lookup-or-create and pool bookkeeping), `inFactory`
(factory call in flight, lock still held), `finished`.  A scheduler picks
which thread steps; not scheduling the `inFactory` step models an arbitrarily
delayed factory call.
-/

/-- Program counter of one thread executing `ClientSet.Get`. -/
inductive TPC where
  | start
  | locked
  | inFactory
  | finished (r : RegOutcome)
deriving DecidableEq

/-- One thread: the hostname and time of its Get call, plus its progress. -/
structure ThreadSt where
  host : String
  now : Nat
  pc : TPC
deriving DecidableEq

/-- State of the two-thread system: the shared pool map, a log of pool
creations (which hostname each creation was for), the mutex owner, and the
two threads.  Thread `false` is the first caller, thread `true` the
second. -/
structure Sys where
  pools : List (String × PoolState)
  creations : List String
  mutexOwner : Option Bool
  t0 : ThreadSt
  t1 : ThreadSt
deriving DecidableEq

/-- The chosen thread's state. -/
def Sys.thread (s : Sys) : Bool → ThreadSt
  | true => s.t1
  | false => s.t0

/-- Replace the chosen thread's state. -/
def Sys.setThread (s : Sys) : Bool → ThreadSt → Sys
  | true, t => { s with t1 := t }
  | false, t => { s with t0 := t }

/-- One step of thread `i`, or `none` when the thread cannot step: a thread
at `start` is blocked while any thread holds cs.mu, and a finished thread
has no step.  The `locked` step performs the lookup-or-create of src/pool.go
lines 57-76 and the lock-protected part of the pool acquire; when the pool
needs a session the thread moves to `inFactory` still holding the lock
(src/pool.go releases cs.mu only when Get returns).  The `inFactory` step
completes the factory call, finishes the acquire, and releases the lock. -/
def threadStep (env : IpmiEnv) (cfg : Config) (s : Sys) (i : Bool) : Option Sys :=
  match (s.thread i).pc with
  | .start =>
    match s.mutexOwner with
    | some _ => none
    | none =>
      some { s.setThread i { s.thread i with pc := .locked } with mutexOwner := some i }
  | .locked =>
    match ((lookupOrCreate s.pools (s.thread i).host).1).getPhase1 (s.thread i).now with
    | (.ready r, p1) =>
      some { s.setThread i { s.thread i with pc := .finished (outcomeOf r (s.thread i).host) } with
             pools := setPool (lookupOrCreate s.pools (s.thread i).host).2.1 (s.thread i).host p1,
             creations := if (lookupOrCreate s.pools (s.thread i).host).2.2
                          then s.creations ++ [(s.thread i).host] else s.creations,
             mutexOwner := none }
    | (.needFactory, p1) =>
      some { s.setThread i { s.thread i with pc := .inFactory } with
             pools := setPool (lookupOrCreate s.pools (s.thread i).host).2.1 (s.thread i).host p1,
             creations := if (lookupOrCreate s.pools (s.thread i).host).2.2
                          then s.creations ++ [(s.thread i).host] else s.creations }
  | .inFactory =>
    match assocLookup s.pools (s.thread i).host with
    | none => none
    | some p =>
      some { s.setThread i
               { s.thread i with
                 pc := .finished
                   (outcomeOf (p.getPhase2 (clientFactory env cfg (s.thread i).host)).1
                     (s.thread i).host) } with
             pools := setPool s.pools (s.thread i).host
               (p.getPhase2 (clientFactory env cfg (s.thread i).host)).2,
             mutexOwner := none }
  | .finished _ => none

/-- Run a schedule: at each entry the named thread steps if it can, and is
skipped otherwise. -/
def runSched (env : IpmiEnv) (cfg : Config) (s : Sys) : List Bool → Sys
  | [] => s
  | i :: rest => runSched env cfg ((threadStep env cfg s i).getD s) rest

/-- Initial system: empty registry, free mutex, both threads about to call
Get with their hostname and time. -/
def initSys (h0 h1 : String) (n0 n1 : Nat) : Sys :=
  ⟨[], [], none, ⟨h0, n0, .start⟩, ⟨h1, n1, .start⟩⟩

/-- Occurrence count in a list. -/
def countOcc {α : Type} [DecidableEq α] : List α → α → Nat
  | [], _ => 0
  | y :: rest, x => (if y = x then 1 else 0) + countOcc rest x

/-- The hostnames under which pools are stored. -/
def keysOf (pools : List (String × PoolState)) : List String := pools.map Prod.fst

/-
Concrete instances used to exercise the definitions at specific inputs.
-/

/-- An ipmi environment in which connection always succeeds. -/
def envOk : IpmiEnv := ⟨fun _ _ _ _ => .ok ⟨0⟩, fun _ => .ok ()⟩

/-- An ipmi environment in which NewClient fails with message "boom". -/
def envBoom : IpmiEnv := ⟨fun _ _ _ _ => .error "boom", fun _ => .ok ()⟩

/-- A configuration with no hosts. -/
def cfgEmpty : Config := ⟨[], "u", "p"⟩

/-- A configuration with hosts "a" and "b". -/
def cfgAB : Config := ⟨[("a", ⟨"10.0.0.1"⟩), ("b", ⟨"10.0.0.2"⟩)], "u", "p"⟩

/-- A factory producing a fresh client on each invocation. -/
def fSeq : Nat → Except Err GoValue := fun n => .ok (.client ⟨n⟩)

/-- The registry pool after a session was acquired at time 0 and released at
time 0: one idle session with deadline `idleTimeoutNs`. -/
def c5p2 : PoolState := ((freshRegistryPool.get fSeq 0).2).put (.client ⟨0⟩) 0

/-- Re-acquiring from `c5p2` exactly when the idle deadline has elapsed. -/
def c5res : Except Err GoValue × PoolState := c5p2.get fSeq 15000000000

/-- The two-thread system after thread `false` (calling Get "a") locked the
registry and entered its factory call: the schedule runs thread `false`
twice from the initial state. -/
def c2State : Sys := runSched envOk cfgAB (initSys "a" "b" 0 0) [false, false]

/-- A pool holding one idle session and one checked-out session, about to be
shut down. -/
def c8Pool : PoolState :=
  { freshRegistryPool with idle := [(.client ⟨3⟩, 5)], checkedOut := 1, capacity := 2 }

/-- A pool with one session checked out and nothing idle, as after acquiring
the single session of a capacity-1 registry pool. -/
def c4Pool : PoolState := { freshRegistryPool with checkedOut := 1 }

/-- The states a hostname's pool slot can be in when the hostname has never
been successfully acquired: no pool yet, or a pool with no idle session, not
closed, and below capacity (a factory error leaves the pool exactly so). -/
def poolReadyForFactory (pools : List (String × PoolState)) (hostname : String) : Bool :=
  match assocLookup pools hostname with
  | none => true
  | some p => decide (p.idle = []) && !p.closed && decide (p.checkedOut < p.capacity)

/-- What the per-target pool (with the factory the registry hands it)
produces for a Get call: the `v, err := p.Get()` pair of src/pool.go
line 78. -/
def acquireFromPool (env : IpmiEnv) (cs : ClientSet) (hostname : String) (now : Nat) :
    Except Err GoValue × PoolState :=
  ((lookupOrCreate cs.pools hostname).1).get (fun _ => clientFactory env cs.cfg hostname) now

/-- Every idle value in the pool is a `*ipmi.Client`. -/
def idleAllClients (p : PoolState) : Prop :=
  ∀ e ∈ p.idle, ∃ c, e.1 = GoValue.client c

/-- Every pool in the registry holds only `*ipmi.Client` values. -/
def poolsWellTyped (pools : List (String × PoolState)) : Prop :=
  ∀ e ∈ pools, idleAllClients e.2

/-
Helper lemmas about the pool operations.
-/

theorem liveIdle_length_le (p : PoolState) (now : Nat) :
    (liveIdle p now).length ≤ p.idle.length :=
  List.length_filter_le _ _

theorem evictExpired_capacity (p : PoolState) (now : Nat) :
    (evictExpired p now).capacity = p.capacity := rfl

theorem evictExpired_checkedOut (p : PoolState) (now : Nat) :
    (evictExpired p now).checkedOut = p.checkedOut := rfl

theorem evictExpired_idle (p : PoolState) (now : Nat) :
    (evictExpired p now).idle = liveIdle p now := rfl

theorem evictExpired_factoryCalls (p : PoolState) (now : Nat) :
    (evictExpired p now).factoryCalls = p.factoryCalls := rfl

theorem getPhase1_capacity (p : PoolState) (now : Nat) :
    ((p.getPhase1 now).2).capacity = p.capacity := by
  unfold PoolState.getPhase1
  split
  · rfl
  · split
    · rfl
    · split <;> rfl

theorem getPhase1_poolCount_le (p : PoolState) (now : Nat) :
    poolCount ((p.getPhase1 now).2) ≤ poolCount p := by
  have hfil := liveIdle_length_le p now
  unfold PoolState.getPhase1
  split
  · exact Nat.le_refl _
  · split
    · next entry rest heq =>
      simp only [poolCount, evictExpired_checkedOut]
      have : (liveIdle p now).length = rest.length + 1 := by rw [heq]; simp
      omega
    · split <;>
      · simp only [poolCount, evictExpired_checkedOut, evictExpired_idle]
        omega

theorem getPhase1_needFactory (p : PoolState) (now : Nat)
    (h : (p.getPhase1 now).1 = Phase1.needFactory) :
    ((p.getPhase1 now).2).checkedOut < p.capacity ∧ ((p.getPhase1 now).2).idle = [] ∧
    ((p.getPhase1 now).2).checkedOut = p.checkedOut ∧
    ((p.getPhase1 now).2).factoryCalls = p.factoryCalls := by
  by_cases hcl : p.closed
  · simp [PoolState.getPhase1, hcl] at h
  · rcases heq : liveIdle p now with _ | ⟨entry, rest⟩
    · by_cases hlt : p.checkedOut < p.capacity
      · simp [PoolState.getPhase1, hcl, heq, hlt, evictExpired_checkedOut,
          evictExpired_idle, evictExpired_factoryCalls]
      · simp [PoolState.getPhase1, hcl, heq, hlt] at h
    · simp [PoolState.getPhase1, hcl, heq] at h

theorem getPhase2_capacity (p : PoolState) (fr : Except Err GoValue) :
    ((p.getPhase2 fr).2).capacity = p.capacity := by
  unfold PoolState.getPhase2; split <;> rfl

theorem getPhase2_idle (p : PoolState) (fr : Except Err GoValue) :
    ((p.getPhase2 fr).2).idle = p.idle := by
  unfold PoolState.getPhase2; split <;> rfl

theorem getPhase2_checkedOut_le (p : PoolState) (fr : Except Err GoValue) :
    ((p.getPhase2 fr).2).checkedOut ≤ p.checkedOut + 1 := by
  unfold PoolState.getPhase2; split <;> simp

theorem get_capacity (p : PoolState) (f : Nat → Except Err GoValue) (now : Nat) :
    ((p.get f now).2).capacity = p.capacity := by
  unfold PoolState.get
  split
  · next heq =>
    have := getPhase1_capacity p now
    rw [heq] at this
    exact this
  · next p1 heq =>
    have h1 := getPhase1_capacity p now
    rw [heq] at h1
    calc ((p1.getPhase2 _).2).capacity = p1.capacity := getPhase2_capacity _ _
    _ = p.capacity := h1

theorem get_poolCount_le (p : PoolState) (f : Nat → Except Err GoValue) (now : Nat)
    (h : poolCount p ≤ p.capacity) : poolCount ((p.get f now).2) ≤ p.capacity := by
  unfold PoolState.get
  split
  · next heq =>
    have h1 := getPhase1_poolCount_le p now
    rw [heq] at h1
    exact Nat.le_trans h1 h
  · next p1 heq =>
    have hnf := getPhase1_needFactory p now (by rw [heq])
    rw [heq] at hnf
    dsimp only at hnf
    obtain ⟨hlt, hi, -, -⟩ := hnf
    have hidle := getPhase2_idle p1 (f p1.factoryCalls)
    have hco := getPhase2_checkedOut_le p1 (f p1.factoryCalls)
    simp only [poolCount, hidle, hi, List.length_nil]
    omega

theorem put_capacity (p : PoolState) (v : GoValue) (now : Nat) :
    (p.put v now).capacity = p.capacity := by
  unfold PoolState.put
  split
  · rfl
  · split <;> rfl

theorem put_poolCount_le (p : PoolState) (v : GoValue) (now : Nat)
    (h : poolCount p ≤ p.capacity) : poolCount (p.put v now) ≤ p.capacity := by
  simp only [poolCount] at h
  unfold PoolState.put
  split
  · exact h
  · next hco =>
    split
    · simp only [poolCount]
      omega
    · simp only [poolCount, List.length_append, List.length_cons, List.length_nil]
      omega

theorem shutdown_capacity (p : PoolState) : p.shutdown.capacity = p.capacity := rfl

theorem shutdown_poolCount_le (p : PoolState)
    (h : poolCount p ≤ p.capacity) : poolCount p.shutdown ≤ p.capacity := by
  simp only [poolCount, PoolState.shutdown] at h ⊢
  simp
  omega

theorem applyOp_capacity (p : PoolState) (op : PoolOp) :
    (p.applyOp op).capacity = p.capacity := by
  cases op with
  | acquire f now => exact get_capacity p f now
  | release v now => exact put_capacity p v now
  | shutdown => exact shutdown_capacity p

theorem applyOp_poolCount_le (p : PoolState) (op : PoolOp)
    (h : poolCount p ≤ p.capacity) : poolCount (p.applyOp op) ≤ p.capacity := by
  cases op with
  | acquire f now => exact get_poolCount_le p f now h
  | release v now => exact put_poolCount_le p v now h
  | shutdown => exact shutdown_poolCount_le p h

theorem runPool_capacity (ops : List PoolOp) (p : PoolState) :
    (runPool p ops).capacity = p.capacity := by
  induction ops generalizing p with
  | nil => rfl
  | cons op ops ih =>
    calc (runPool (p.applyOp op) ops).capacity = (p.applyOp op).capacity := ih _
    _ = p.capacity := applyOp_capacity p op

theorem runPool_poolCount_le (ops : List PoolOp) (p : PoolState)
    (h : poolCount p ≤ p.capacity) : poolCount (runPool p ops) ≤ p.capacity := by
  induction ops generalizing p with
  | nil => exact h
  | cons op ops ih =>
    have h1 := applyOp_poolCount_le p op h
    rw [← applyOp_capacity p op] at h1
    have h2 := ih (p.applyOp op) h1
    rw [applyOp_capacity p op] at h2
    exact h2

/-- C1: for every pool (whatever its capacity, idle timeout and close
callback) and every sequence of interleaved Acquire and Release calls
(shutdown included), the number of sessions checked out plus idle never
exceeds the pool's capacity; in particular the number simultaneously checked
out never exceeds it.  The pool the registry creates has capacity 1 (MaxCap
at src/pool.go line 62), the default the spec describes. -/
theorem c1_pool_capacity_invariant (capacity idleTimeout : Nat) (cf : CloseFn)
    (ops : List PoolOp) :
    poolCount (runPool (emptyPool capacity idleTimeout cf) ops) ≤ capacity ∧
    (runPool (emptyPool capacity idleTimeout cf) ops).checkedOut ≤ capacity ∧
    freshRegistryPool.capacity = 1 := by
  have h0 : poolCount (emptyPool capacity idleTimeout cf) ≤
      (emptyPool capacity idleTimeout cf).capacity := by
    simp [poolCount, emptyPool]
  have h1 := runPool_poolCount_le ops (emptyPool capacity idleTimeout cf) h0
  simp only [emptyPool] at h1
  refine ⟨h1, ?_, rfl⟩
  have : (runPool (emptyPool capacity idleTimeout cf) ops).checkedOut ≤
      poolCount (runPool (emptyPool capacity idleTimeout cf) ops) := Nat.le_add_right _ _
  exact Nat.le_trans this h1

/-
Reuse, eviction and shutdown of a single pool.
-/

theorem put_open (p : PoolState) (v : GoValue) (now : Nat)
    (hco : p.checkedOut ≠ 0) (hcl : p.closed = false) :
    p.put v now =
      { p with checkedOut := p.checkedOut - 1,
               idle := p.idle ++ [(v, now + p.idleTimeout)] } := by
  simp [PoolState.put, hco, hcl]

theorem get_hits_idle (p : PoolState) (v : GoValue) (d : Nat)
    (f : Nat → Except Err GoValue) (now : Nat)
    (hidle : p.idle = [(v, d)]) (hcl : p.closed = false) (hlt : now < d) :
    (p.get f now).1 = .ok v ∧ (p.get f now).2.factoryCalls = p.factoryCalls := by
  have hlive : liveIdle p now = [(v, d)] := by simp [liveIdle, hidle, hlt]
  simp [PoolState.get, PoolState.getPhase1, hcl, hlive, evictExpired, expiredIdle, hidle,
    Nat.not_le_of_lt hlt]

/-- C4: a session released into a pool with no other idle sessions (the
situation of the capacity-1 registry pool) and re-acquired before its idle
deadline `release time + idleTimeout` elapses is returned as-is: the acquire
yields the very session that was released and the factory invocation count
is unchanged. -/
theorem c4_reacquire_before_timeout (p : PoolState) (v : GoValue)
    (f : Nat → Except Err GoValue) (tRel tAcq : Nat)
    (hidle : p.idle = []) (hco : p.checkedOut ≠ 0) (hcl : p.closed = false)
    (ht : tAcq < tRel + p.idleTimeout) :
    ((p.put v tRel).get f tAcq).1 = .ok v ∧
    ((p.put v tRel).get f tAcq).2.factoryCalls = p.factoryCalls := by
  rw [put_open p v tRel hco hcl]
  exact get_hits_idle _ v (tRel + p.idleTimeout) f tAcq (by simp [hidle]) hcl ht

/-- Witness for C4: the registry pool with its one session checked out,
released at time 0 and re-acquired at time 1 (within the 15s deadline),
returns the same client with no new factory call. -/
theorem c4_reacquire_before_timeout_witness :
    c4Pool.idle = [] ∧
    ((c4Pool.put (.client ⟨7⟩) 0).get fSeq 1).1 = .ok (.client ⟨7⟩) ∧
    ((c4Pool.put (.client ⟨7⟩) 0).get fSeq 1).2.factoryCalls = c4Pool.factoryCalls :=
  ⟨by decide,
   (c4_reacquire_before_timeout c4Pool (.client ⟨7⟩) fSeq 0 1 (by decide) (by decide)
     (by decide) (by decide)).1,
   (c4_reacquire_before_timeout c4Pool (.client ⟨7⟩) fSeq 0 1 (by decide) (by decide)
     (by decide) (by decide)).2⟩

/-- C5 counterexample: start from the registry's pool (as configured by
src/pool.go), acquire a session at time 0, release it at time 0, and acquire
again at time 15000000000 ns, exactly when the idle deadline
`0 + idleTimeout` has elapsed.  The expired session (client 0) is evicted:
it is passed to the configured close callback (`closeCalls`) and discarded,
and the acquire invokes the factory again and returns a fresh session
(client 1).  But `closedSessions` is empty: the close callback configured at
src/pool.go line 64 is a no-op, so the evicted session is never actually
closed, contradicting the claim that the session is closed. -/
theorem c5_counterexample :
    c5res.1 = .ok (.client ⟨1⟩) ∧
    c5res.2.closeCalls = [.client ⟨0⟩] ∧
    c5res.2.closedSessions = [] ∧
    c5res.2.factoryCalls = 2 := by decide

/-- C5 (amended): a session left idle past its deadline is evicted at the
next acquire: it is discarded after being passed to the configured close
callback, which for the registry's pools is the no-op of src/pool.go line 64
and therefore does not actually close it; the acquire invokes the factory
(one more factory call) and returns the factory's fresh session instead of
the expired one.  The deadline is set at release to `now + idleTimeout`, and
the registry configures idleTimeout = 15s = 15000000000 ns. -/
theorem c5_idle_timeout_eviction (p : PoolState) (v w : GoValue) (d now : Nat)
    (f : Nat → Except Err GoValue)
    (hidle : p.idle = [(v, d)]) (hexp : d ≤ now) (hcl : p.closed = false)
    (hcap : p.checkedOut < p.capacity) (hf : f p.factoryCalls = .ok w) :
    (p.get f now).1 = .ok w ∧
    (p.get f now).2.closeCalls = p.closeCalls ++ [v] ∧
    (p.get f now).2.closedSessions = applyClose p.closeFn p.closedSessions [v] ∧
    (p.get f now).2.factoryCalls = p.factoryCalls + 1 ∧
    freshRegistryPool.closeFn = CloseFn.noop ∧
    freshRegistryPool.idleTimeout = 15 * 1000000000 := by
  have hlive : liveIdle p now = [] := by
    simp [liveIdle, hidle, Nat.not_lt_of_le hexp]
  have hexpd : expiredIdle p now = [(v, d)] := by simp [expiredIdle, hidle, hexp]
  simp [PoolState.get, PoolState.getPhase1, PoolState.getPhase2, hcl, hlive, hcap,
    evictExpired, hexpd, hf]
  exact ⟨by decide, by decide⟩

/-- Witness for C5 (amended): the released registry pool `c5p2` holds
client 0 idle with deadline 15000000000; acquiring at that time evicts it
(close callback invoked, nothing actually closed under the no-op callback)
and returns the fresh client 1 from the factory's second invocation. -/
theorem c5_idle_timeout_eviction_witness :
    c5p2.idle = [(.client ⟨0⟩, 15000000000)] ∧
    (c5p2.get fSeq 15000000000).1 = .ok (.client ⟨1⟩) ∧
    (c5p2.get fSeq 15000000000).2.closeCalls = c5p2.closeCalls ++ [.client ⟨0⟩] ∧
    (c5p2.get fSeq 15000000000).2.closedSessions =
      applyClose c5p2.closeFn c5p2.closedSessions [.client ⟨0⟩] ∧
    (c5p2.get fSeq 15000000000).2.factoryCalls = c5p2.factoryCalls + 1 :=
  have h := c5_idle_timeout_eviction c5p2 (.client ⟨0⟩) (.client ⟨1⟩) 15000000000 15000000000
    fSeq (by decide) (by decide) (by decide) (by decide) (by decide)
  ⟨by decide, h.1, h.2.1, h.2.2.1, h.2.2.2.1⟩

theorem countOcc_eq_zero_of_not_mem {α : Type} [DecidableEq α] (l : List α) (x : α)
    (h : x ∉ l) : countOcc l x = 0 := by
  induction l with
  | nil => rfl
  | cons y rest ih =>
    simp only [List.mem_cons, not_or] at h
    simp [countOcc, Ne.symm h.1, ih h.2]

theorem countOcc_eq_one_of_nodup_mem {α : Type} [DecidableEq α] (l : List α) (x : α)
    (hnd : l.Nodup) (hm : x ∈ l) : countOcc l x = 1 := by
  induction l with
  | nil => cases hm
  | cons y rest ih =>
    rw [List.nodup_cons] at hnd
    rcases List.mem_cons.mp hm with h | h
    · subst h
      simp [countOcc, countOcc_eq_zero_of_not_mem rest x hnd.1]
    · have hne : y ≠ x := fun he => hnd.1 (he ▸ h)
      simp [countOcc, hne, ih hnd.2 h]

/-- C8: the pool's shutdown operation (modelled from the spec; nothing under
src/ implements or invokes it).  After shutdown every acquire fails with
PoolClosedError, every session that was idle at shutdown has been closed
exactly once (counted in `closedSessions`, given distinct idle sessions and
no earlier closes), and a session checked out at shutdown is closed
immediately on release instead of going idle. -/
theorem c8_shutdown_contract (p : PoolState)
    (hnd : (p.idle.map Prod.fst).Nodup) (hcs : p.closedSessions = []) :
    (∀ f now, ((p.shutdown).get f now).1 = .error .poolClosed) ∧
    (∀ v, v ∈ p.idle.map Prod.fst → countOcc (p.shutdown).closedSessions v = 1) ∧
    (∀ v t, (p.shutdown).checkedOut ≠ 0 →
      ((p.shutdown).put v t).idle = [] ∧
      ((p.shutdown).put v t).closedSessions = (p.shutdown).closedSessions ++ [v]) := by
  refine ⟨?_, ?_, ?_⟩
  · intro f now
    simp [PoolState.get, PoolState.getPhase1, PoolState.shutdown]
  · intro v hv
    have : (p.shutdown).closedSessions = p.idle.map Prod.fst := by
      simp [PoolState.shutdown, hcs]
    rw [this]
    exact countOcc_eq_one_of_nodup_mem _ v hnd hv
  · intro v t hco
    simp only [PoolState.shutdown] at hco
    constructor
    · simp [PoolState.put, PoolState.shutdown, hco]
    · simp [PoolState.put, PoolState.shutdown, hco]

/-- Witness for C8: shutting down `c8Pool` (one idle client 3, one session
checked out) rejects a later acquire with PoolClosedError, closes client 3
exactly once, and closes the checked-out client 9 immediately when it is
released. -/
theorem c8_shutdown_contract_witness :
    ((c8Pool.shutdown).get fSeq 0).1 = .error .poolClosed ∧
    countOcc (c8Pool.shutdown).closedSessions (.client ⟨3⟩) = 1 ∧
    ((c8Pool.shutdown).put (.client ⟨9⟩) 0).idle = [] ∧
    ((c8Pool.shutdown).put (.client ⟨9⟩) 0).closedSessions =
      (c8Pool.shutdown).closedSessions ++ [.client ⟨9⟩] :=
  have h := c8_shutdown_contract c8Pool (by decide) (by decide)
  ⟨h.1 fSeq 0, h.2.1 (.client ⟨3⟩) (by decide),
   (h.2.2 (.client ⟨9⟩) 0 (by decide)).1, (h.2.2 (.client ⟨9⟩) 0 (by decide)).2⟩

/-
Registry-level lemmas: lookup, creation, error propagation.
-/

theorem applyClose_nil (cf : CloseFn) (closedSessions : List GoValue) :
    applyClose cf closedSessions [] = closedSessions := by
  cases cf <;> simp [applyClose]

theorem evictExpired_of_idle_nil (p : PoolState) (now : Nat) (h : p.idle = []) :
    evictExpired p now = p := by
  obtain ⟨cap, tout, cf, idle, co, cl, fc, cc, cs⟩ := p
  simp only at h
  subst h
  simp [evictExpired, liveIdle, expiredIdle, applyClose_nil]

theorem getPhase1_needFactory_of (p : PoolState) (now : Nat)
    (hidle : p.idle = []) (hcl : p.closed = false) (hcap : p.checkedOut < p.capacity) :
    p.getPhase1 now = (Phase1.needFactory, p) := by
  have h1 : liveIdle p now = [] := by simp [liveIdle, hidle]
  simp [PoolState.getPhase1, hcl, h1, hcap, evictExpired_of_idle_nil p now hidle]

theorem clientFactory_unknown (env : IpmiEnv) (cfg : Config) (hostname : String)
    (h : assocLookup cfg.hosts hostname = none) :
    clientFactory env cfg hostname = .error (.unknownHostname hostname) := by
  simp [clientFactory, h]

theorem assocLookup_cons_isSome {α : Type} (rest : List (String × α)) (a : String) (b : α)
    (k : String) (hs : (assocLookup rest k).isSome) :
    (assocLookup ((a, b) :: rest) k).isSome := by
  by_cases hak : a = k <;> simp [assocLookup, hak, hs]

theorem assocLookup_isSome_iff {α : Type} (l : List (String × α)) (k : String) :
    (assocLookup l k).isSome ↔ k ∈ l.map Prod.fst := by
  induction l with
  | nil => simp [assocLookup]
  | cons e rest ih =>
    obtain ⟨a, b⟩ := e
    by_cases hak : a = k
    · subst hak
      simp [assocLookup]
    · simp only [assocLookup, if_neg hak, List.map_cons, List.mem_cons]
      rw [ih]
      constructor
      · exact Or.inr
      · rintro (h | h)
        · exact absurd h.symm hak
        · exact h

theorem keysOf_setPool (pools : List (String × PoolState)) (h : String) (p : PoolState) :
    keysOf (setPool pools h p) = keysOf pools := by
  induction pools with
  | nil => rfl
  | cons e rest ih =>
    obtain ⟨a, b⟩ := e
    by_cases hah : a = h
    · simp only [setPool, List.map_cons] at ih ⊢
      simp [keysOf, hah, ih]
      simpa [keysOf, setPool] using ih
    · simp only [setPool, List.map_cons] at ih ⊢
      simp [keysOf, hah]
      simpa [keysOf, setPool] using ih

theorem assocLookup_setPool_isSome (pools : List (String × PoolState)) (h k : String)
    (p : PoolState) (hs : (assocLookup pools k).isSome) :
    (assocLookup (setPool pools h p) k).isSome := by
  rw [assocLookup_isSome_iff] at hs ⊢
  have hk := keysOf_setPool pools h p
  unfold keysOf at hk
  rw [hk]
  exact hs

theorem assocLookup_setPool_self (pools : List (String × PoolState)) (h : String)
    (p : PoolState) (hs : (assocLookup pools h).isSome) :
    assocLookup (setPool pools h p) h = some p := by
  induction pools with
  | nil => simp [assocLookup] at hs
  | cons e rest ih =>
    obtain ⟨a, b⟩ := e
    by_cases hah : a = h
    · subst hah
      simp only [setPool, List.map_cons]
      norm_num
      simp [assocLookup]
    · simp only [assocLookup, if_neg hah] at hs
      simp only [setPool, List.map_cons]
      rw [if_neg hah]
      simp only [assocLookup, if_neg hah]
      simpa [setPool] using ih hs

theorem lookupOrCreate_mem (pools : List (String × PoolState)) (h : String) :
    (assocLookup (lookupOrCreate pools h).2.1 h).isSome := by
  unfold lookupOrCreate
  cases hl : assocLookup pools h with
  | none => simp [assocLookup]
  | some p => simp [hl]

theorem lookupOrCreate_ready (pools : List (String × PoolState)) (hostname : String)
    (hr : poolReadyForFactory pools hostname = true) :
    (lookupOrCreate pools hostname).1.idle = [] ∧
    (lookupOrCreate pools hostname).1.closed = false ∧
    (lookupOrCreate pools hostname).1.checkedOut < (lookupOrCreate pools hostname).1.capacity := by
  unfold poolReadyForFactory at hr
  unfold lookupOrCreate
  cases hl : assocLookup pools hostname with
  | none =>
    refine ⟨rfl, rfl, ?_⟩
    show freshRegistryPool.checkedOut < freshRegistryPool.capacity
    decide
  | some p =>
    rw [hl] at hr
    simp only [Bool.and_eq_true, decide_eq_true_eq, Bool.not_eq_true'] at hr
    exact ⟨hr.1.1, hr.1.2, hr.2⟩

theorem Get_unknown_spec (env : IpmiEnv) (cs : ClientSet) (hostname : String) (now : Nat)
    (hcfg : assocLookup cs.cfg.hosts hostname = none)
    (hready : poolReadyForFactory cs.pools hostname = true) :
    (ClientSet.Get env cs hostname now).1 = .err (.unknownHostname hostname) ∧
    assocLookup ((ClientSet.Get env cs hostname now).2).pools hostname =
      some { (lookupOrCreate cs.pools hostname).1 with
             factoryCalls := (lookupOrCreate cs.pools hostname).1.factoryCalls + 1 } := by
  obtain ⟨h1, h2, h3⟩ := lookupOrCreate_ready cs.pools hostname hready
  have hph := getPhase1_needFactory_of _ now h1 h2 h3
  have hcf := clientFactory_unknown env cs.cfg hostname hcfg
  unfold ClientSet.Get
  rw [hph]
  simp [PoolState.getPhase2, hcf, outcomeOf]
  exact assocLookup_setPool_self _ _ _ (lookupOrCreate_mem cs.pools hostname)

/-- C3 counterexample: with an empty configuration, Get "x" does return the
unknown-hostname error, but the factory-invocation count of the pool stored
for "x" is 1, not 0: the error is produced by invoking the session factory
(the configuration check lives inside `clientFactory`, src/pool.go
lines 22-25), so the claim's "without invoking any session factory" is
false. -/
theorem c3_counterexample :
    (ClientSet.Get envOk (NewClientSet cfgEmpty) "x" 0).1 = .err (.unknownHostname "x") ∧
    (assocLookup ((ClientSet.Get envOk (NewClientSet cfgEmpty) "x" 0).2).pools "x").map
      PoolState.factoryCalls = some 1 := by decide

/-- C3 (amended): for a hostname absent from the configuration (and whose
pool, if any, is in the state unsuccessful acquisition leaves it in), Get
always fails with the unknown-hostname error; the error is produced by the
session factory, which is invoked exactly once per attempt, and the factory
fails before any connection is attempted (its result does not depend on the
ipmi environment at all). -/
theorem c3_unknown_target_error (env : IpmiEnv) (cs : ClientSet) (hostname : String)
    (now : Nat)
    (hcfg : assocLookup cs.cfg.hosts hostname = none)
    (hready : poolReadyForFactory cs.pools hostname = true) :
    (ClientSet.Get env cs hostname now).1 = .err (.unknownHostname hostname) ∧
    (∃ q, assocLookup ((ClientSet.Get env cs hostname now).2).pools hostname = some q ∧
      q.factoryCalls = (lookupOrCreate cs.pools hostname).1.factoryCalls + 1) ∧
    (∀ env2 : IpmiEnv, clientFactory env2 cs.cfg hostname =
      .error (.unknownHostname hostname)) := by
  obtain ⟨ha, hb⟩ := Get_unknown_spec env cs hostname now hcfg hready
  exact ⟨ha, ⟨_, hb, rfl⟩, fun env2 => clientFactory_unknown env2 cs.cfg hostname hcfg⟩

/-- Witness for C3 (amended) at the empty configuration and hostname "x". -/
theorem c3_unknown_target_error_witness :
    assocLookup (NewClientSet cfgEmpty).cfg.hosts "x" = none ∧
    (ClientSet.Get envOk (NewClientSet cfgEmpty) "x" 0).1 = .err (.unknownHostname "x") ∧
    clientFactory envBoom cfgEmpty "x" = .error (.unknownHostname "x") :=
  ⟨by decide,
   (c3_unknown_target_error envOk (NewClientSet cfgEmpty) "x" 0 (by decide) (by decide)).1,
   (c3_unknown_target_error envOk (NewClientSet cfgEmpty) "x" 0 (by decide)
     (by decide)).2.2 envBoom⟩

/-- C7 counterexample: host "a" is configured, the connection factory fails
with "boom", and Get returns exactly the factory's error: an error value
carrying no target context (`isWrapped` is false, and the value equals the
factory's error verbatim), where the claim requires it to be wrapped with
the target name. -/
theorem c7_counterexample :
    (ClientSet.Get envBoom (NewClientSet cfgAB) "a" 0).1 = .err (.connectErr "boom") ∧
    clientFactory envBoom cfgAB "a" = .error (.connectErr "boom") ∧
    Err.isWrapped (.connectErr "boom") = false := by decide

/-- C7 (amended): whenever the per-target pool (driven by the target's
factory) produces an error, `ClientSet.Get` returns that very error
unchanged (src/pool.go lines 78-81 return `err` as-is), with no target
context added. -/
theorem c7_error_returned_unchanged (env : IpmiEnv) (cs : ClientSet) (hostname : String)
    (now : Nat) (e : Err)
    (h : (acquireFromPool env cs hostname now).1 = .error e) :
    (ClientSet.Get env cs hostname now).1 = .err e := by
  unfold acquireFromPool PoolState.get at h
  unfold ClientSet.Get
  cases hph : ((lookupOrCreate cs.pools hostname).1).getPhase1 now with
  | mk ph1 p1 =>
    rw [hph] at h
    cases ph1 with
    | ready r =>
      simp only [] at h
      simp [outcomeOf, h]
    | needFactory =>
      simp only [] at h
      simp only []
      simp [outcomeOf, h]

/-- Witness for C7 (amended): the "boom" connect failure for host "a" flows
out of Get unchanged. -/
theorem c7_error_returned_unchanged_witness :
    (acquireFromPool envBoom (NewClientSet cfgAB) "a" 0).1 = .error (.connectErr "boom") ∧
    (ClientSet.Get envBoom (NewClientSet cfgAB) "a" 0).1 = .err (.connectErr "boom") :=
  ⟨by decide,
   c7_error_returned_unchanged envBoom (NewClientSet cfgAB) "a" 0 (.connectErr "boom")
     (by decide)⟩

theorem Get_pools_isSome (env : IpmiEnv) (cs : ClientSet) (hostname k : String) (now : Nat)
    (hs : (assocLookup cs.pools k).isSome) :
    (assocLookup ((ClientSet.Get env cs hostname now).2).pools k).isSome := by
  have hsub : (assocLookup (lookupOrCreate cs.pools hostname).2.1 k).isSome := by
    unfold lookupOrCreate
    cases hl : assocLookup cs.pools hostname with
    | none => exact assocLookup_cons_isSome _ _ _ _ hs
    | some p => exact hs
  unfold ClientSet.Get
  cases hph : ((lookupOrCreate cs.pools hostname).1).getPhase1 now with
  | mk ph1 p1 =>
    cases ph1 with
    | ready r => exact assocLookup_setPool_isSome _ _ _ _ hsub
    | needFactory => exact assocLookup_setPool_isSome _ _ _ _ hsub

theorem Put_pools_isSome (cs : ClientSet) (handle : ClientHandle) (now : Nat) (k : String)
    (hs : (assocLookup cs.pools k).isSome) :
    (assocLookup (cs.Put handle now).pools k).isSome := by
  unfold ClientSet.Put
  cases hl : assocLookup cs.pools handle.poolHost with
  | none => exact hs
  | some p => exact assocLookup_setPool_isSome _ _ _ _ hs

theorem runCS_pools_isSome (env : IpmiEnv) (ops : List CSOp) (cs : ClientSet) (k : String)
    (hs : (assocLookup cs.pools k).isSome) :
    (assocLookup (runCS env cs ops).pools k).isSome := by
  induction ops generalizing cs with
  | nil => exact hs
  | cons op ops ih =>
    cases op with
    | get hostname now => exact ih _ (Get_pools_isSome env cs hostname k now hs)
    | put handle now => exact ih _ (Put_pools_isSome cs handle now k hs)

/-- C9: for a hostname absent from the configuration and not yet in the
registry, the first Get returns an error, yet it is not atomic: a pool for
that hostname has been created and stored in the registry map, and the entry
persists across every later sequence of Get/Put operations (nothing ever
removes map entries), so the registry state is changed on the error path. -/
theorem c9_error_path_stores_pool (env : IpmiEnv) (cs : ClientSet) (hostname : String)
    (now : Nat)
    (hcfg : assocLookup cs.cfg.hosts hostname = none)
    (hpool : assocLookup cs.pools hostname = none) :
    (∃ e, (ClientSet.Get env cs hostname now).1 = .err e) ∧
    (assocLookup ((ClientSet.Get env cs hostname now).2).pools hostname).isSome ∧
    (∀ (env2 : IpmiEnv) (ops : List CSOp),
      (assocLookup ((runCS env2 ((ClientSet.Get env cs hostname now).2) ops).pools)
        hostname).isSome) := by
  have hready : poolReadyForFactory cs.pools hostname = true := by
    unfold poolReadyForFactory
    rw [hpool]
  obtain ⟨ha, hb⟩ := Get_unknown_spec env cs hostname now hcfg hready
  refine ⟨⟨_, ha⟩, ?_, ?_⟩
  · rw [hb]
    rfl
  · intro env2 ops
    refine runCS_pools_isSome env2 ops _ hostname ?_
    rw [hb]
    rfl

/-- Witness for C9: hostname "x" with the empty configuration; the pool for
"x" is present after the failed Get and survives a further Get/Put
sequence. -/
theorem c9_error_path_stores_pool_witness :
    assocLookup cfgEmpty.hosts "x" = none ∧
    (assocLookup ((ClientSet.Get envOk (NewClientSet cfgEmpty) "x" 0).2).pools "x").isSome ∧
    (assocLookup ((runCS envOk ((ClientSet.Get envOk (NewClientSet cfgEmpty) "x" 0).2)
      [CSOp.get "x" 1, CSOp.put ⟨⟨0⟩, "x"⟩ 2]).pools) "x").isSome :=
  ⟨by decide,
   (c9_error_path_stores_pool envOk (NewClientSet cfgEmpty) "x" 0 (by decide)
     (by decide)).2.1,
   (c9_error_path_stores_pool envOk (NewClientSet cfgEmpty) "x" 0 (by decide)
     (by decide)).2.2 envOk [CSOp.get "x" 1, CSOp.put ⟨⟨0⟩, "x"⟩ 2]⟩

/-
The registry lock across the factory call (interleaved semantics).
-/

/-- C2 counterexample: from the initial state, thread `false` (Get "a")
takes two steps: it locks the registry and, finding no idle session, enters
its factory call, still holding cs.mu (src/pool.go lines 54-55 hold the lock
for the whole method body via defer).  Thread `true` (Get "b", a different
target) is now blocked: its only possible step, taking the lock, is
unavailable (`threadStep` returns none), even though only thread `false`'s
factory call is outstanding — contradicting the claim that an in-progress
factory call for A never blocks an Acquire for B. -/
theorem c2_counterexample :
    (c2State.thread false).pc = .inFactory ∧
    (c2State.thread false).host = "a" ∧
    (c2State.thread true).pc = .start ∧
    (c2State.thread true).host = "b" ∧
    c2State.mutexOwner = some false ∧
    threadStep envOk cfgAB c2State true = none := by decide

/-- C2 (amended): the registry lock is held for the entire Get call,
including while the session factory runs; consequently, whenever one
thread's factory call is in progress, the other thread (whatever its target)
cannot take any step, and it becomes able to step again only once the first
thread's factory call completes and Get returns, releasing the lock. -/
theorem c2_lock_held_across_factory (env : IpmiEnv) (cfg : Config) (s : Sys) (p : PoolState)
    (h0 : s.t0.pc = .inFactory) (h1 : s.t1.pc = .start)
    (hm : s.mutexOwner = some false)
    (hp : assocLookup s.pools s.t0.host = some p) :
    threadStep env cfg s true = none ∧
    ∃ s2, threadStep env cfg s false = some s2 ∧ s2.mutexOwner = none ∧
      (threadStep env cfg s2 true).isSome := by
  have ht1 : s.thread true = s.t1 := rfl
  have ht0 : s.thread false = s.t0 := rfl
  refine ⟨?_, ?_⟩
  · unfold threadStep
    rw [ht1, h1, hm]
  · refine ⟨{ s.setThread false
        { s.t0 with
          pc := .finished
            (outcomeOf (p.getPhase2 (clientFactory env cfg s.t0.host)).1 s.t0.host) } with
        pools := setPool s.pools s.t0.host
          (p.getPhase2 (clientFactory env cfg s.t0.host)).2,
        mutexOwner := none }, ?_, rfl, ?_⟩
    · unfold threadStep
      rw [ht0, h0, hp]
    · unfold threadStep
      have : ({ s.setThread false
          { s.t0 with
            pc := .finished
              (outcomeOf (p.getPhase2 (clientFactory env cfg s.t0.host)).1 s.t0.host) } with
          pools := setPool s.pools s.t0.host
            (p.getPhase2 (clientFactory env cfg s.t0.host)).2,
          mutexOwner := none } : Sys).thread true = s.t1 := rfl
      rw [this, h1]
      rfl

/-- Witness for C2 (amended) at the concrete blocked state `c2State`. -/
theorem c2_lock_held_across_factory_witness :
    threadStep envOk cfgAB c2State true = none ∧
    ∃ s2, threadStep envOk cfgAB c2State false = some s2 ∧ s2.mutexOwner = none ∧
      (threadStep envOk cfgAB s2 true).isSome :=
  c2_lock_held_across_factory envOk cfgAB c2State freshRegistryPool (by decide) (by decide)
    (by decide) (by decide)

/-
Uniqueness of pools per target name under every interleaving.
-/

theorem setThread_pools (s : Sys) (i : Bool) (t : ThreadSt) :
    (s.setThread i t).pools = s.pools := by
  cases i <;> rfl

theorem setThread_creations (s : Sys) (i : Bool) (t : ThreadSt) :
    (s.setThread i t).creations = s.creations := by
  cases i <;> rfl

theorem keysOf_cons (e : String × PoolState) (l : List (String × PoolState)) :
    keysOf (e :: l) = e.1 :: keysOf l := rfl

theorem countOcc_append_singleton {α : Type} [DecidableEq α] (l : List α) (x h : α) :
    countOcc (l ++ [x]) h = countOcc l h + (if x = h then 1 else 0) := by
  induction l with
  | nil => simp [countOcc]
  | cons y rest ih =>
    show (if y = h then 1 else 0) + countOcc (rest ++ [x]) h =
      countOcc (y :: rest) h + (if x = h then 1 else 0)
    rw [ih, ← Nat.add_assoc]
    rfl

theorem assocLookup_none_not_mem {α : Type} (l : List (String × α)) (k : String)
    (h : assocLookup l k = none) : k ∉ l.map Prod.fst := by
  intro hm
  rw [← assocLookup_isSome_iff] at hm
  rw [h] at hm
  simp at hm

theorem threadStep_keys_inv (env : IpmiEnv) (cfg : Config) (s : Sys) (i : Bool)
    (hnd : (keysOf s.pools).Nodup)
    (hcnt : ∀ h : String, countOcc s.creations h = if h ∈ keysOf s.pools then 1 else 0) :
    (keysOf ((threadStep env cfg s i).getD s).pools).Nodup ∧
    ∀ h : String, countOcc ((threadStep env cfg s i).getD s).creations h =
      if h ∈ keysOf ((threadStep env cfg s i).getD s).pools then 1 else 0 := by
  unfold threadStep
  cases hpc : (s.thread i).pc with
  | start =>
    cases hmo : s.mutexOwner with
    | some j => exact ⟨hnd, hcnt⟩
    | none =>
      constructor
      · simpa [Option.getD, setThread_pools] using hnd
      · intro h
        simpa [Option.getD, setThread_pools, setThread_creations] using hcnt h
  | locked =>
    cases hal : assocLookup s.pools (s.thread i).host with
    | some q =>
      have hlc : lookupOrCreate s.pools (s.thread i).host = (q, s.pools, false) := by
        simp [lookupOrCreate, hal]
      rw [hlc]
      cases hph : q.getPhase1 (s.thread i).now with
      | mk ph1 p1 =>
        cases ph1 <;>
        · constructor
          · simpa [Option.getD, setThread_pools, keysOf_setPool] using hnd
          · intro h
            simpa [Option.getD, setThread_pools, setThread_creations, keysOf_setPool]
              using hcnt h
    | none =>
      have hlc : lookupOrCreate s.pools (s.thread i).host =
          (freshRegistryPool, ((s.thread i).host, freshRegistryPool) :: s.pools, true) := by
        simp [lookupOrCreate, hal]
      have hnm : (s.thread i).host ∉ keysOf s.pools :=
        assocLookup_none_not_mem s.pools (s.thread i).host hal
      rw [hlc]
      cases hph : freshRegistryPool.getPhase1 (s.thread i).now with
      | mk ph1 p1 =>
        cases ph1 <;>
        · constructor
          · simp only [Option.getD, setThread_pools, keysOf_setPool, keysOf_cons]
            simpa [List.nodup_cons, hnd] using hnm
          · intro h
            simp only [Option.getD, setThread_pools, setThread_creations, keysOf_setPool,
              keysOf_cons, if_true]
            rw [countOcc_append_singleton, hcnt h]
            by_cases hh : (s.thread i).host = h
            · subst hh
              simp [hnm]
            · simp [hh, List.mem_cons, Ne.symm hh]
  | inFactory =>
    cases hal : assocLookup s.pools (s.thread i).host with
    | none => exact ⟨hnd, hcnt⟩
    | some p =>
      constructor
      · simpa [Option.getD, setThread_pools, keysOf_setPool] using hnd
      · intro h
        simpa [Option.getD, setThread_pools, setThread_creations, keysOf_setPool]
          using hcnt h
  | finished r => exact ⟨hnd, hcnt⟩

theorem runSched_keys_inv (env : IpmiEnv) (cfg : Config) (sched : List Bool) (s : Sys)
    (hnd : (keysOf s.pools).Nodup)
    (hcnt : ∀ h : String, countOcc s.creations h = if h ∈ keysOf s.pools then 1 else 0) :
    (keysOf (runSched env cfg s sched).pools).Nodup ∧
    ∀ h : String, countOcc (runSched env cfg s sched).creations h =
      if h ∈ keysOf (runSched env cfg s sched).pools then 1 else 0 := by
  induction sched generalizing s with
  | nil => exact ⟨hnd, hcnt⟩
  | cons i rest ih =>
    have hstep := threadStep_keys_inv env cfg s i hnd hcnt
    exact ih _ hstep.1 hstep.2

/-- C6: under every interleaving of two concurrent Get calls (any hostnames,
including the same not-yet-pooled name, any times, any schedule), the
registry map never holds two pools under one hostname (its keys stay
distinct), and at most one pool creation ever happens per hostname: the
lookup-or-create step runs under the registry mutex, so concurrent first use
cannot install duplicate pools. -/
theorem c6_at_most_one_pool_per_name (env : IpmiEnv) (cfg : Config) (h0 h1 : String)
    (n0 n1 : Nat) (sched : List Bool) :
    (keysOf (runSched env cfg (initSys h0 h1 n0 n1) sched).pools).Nodup ∧
    ∀ hn : String,
      countOcc (runSched env cfg (initSys h0 h1 n0 n1) sched).creations hn ≤ 1 := by
  have hinv := runSched_keys_inv env cfg sched (initSys h0 h1 n0 n1)
    (by simp [initSys, keysOf])
    (by intro h; simp [initSys, countOcc, keysOf])
  refine ⟨hinv.1, fun hn => ?_⟩
  rw [hinv.2 hn]
  split <;> omega

/-
Totality of the type assertion in Get's success branch.
-/

theorem clientFactory_ok_client (env : IpmiEnv) (cfg : Config) (hostname : String)
    (v : GoValue) (h : clientFactory env cfg hostname = .ok v) :
    ∃ c, v = GoValue.client c := by
  unfold clientFactory at h
  cases hl : assocLookup cfg.hosts hostname with
  | none => rw [hl] at h; cases h
  | some data =>
    rw [hl] at h
    dsimp only at h
    cases hn : env.newClient data.address 623 cfg.username cfg.password with
    | error e => rw [hn] at h; cases h
    | ok client =>
      rw [hn] at h
      dsimp only at h
      cases hc : env.connect client with
      | error e => rw [hc] at h; cases h
      | ok u => rw [hc] at h; exact ⟨client, (Except.ok.inj h).symm⟩

theorem idleAllClients_evict (p : PoolState) (now : Nat) (h : idleAllClients p) :
    idleAllClients (evictExpired p now) := by
  intro e he
  exact h e (List.mem_of_mem_filter (he : e ∈ liveIdle p now))

theorem getPhase1_clients (p : PoolState) (now : Nat) (h : idleAllClients p) :
    idleAllClients ((p.getPhase1 now).2) ∧
    (∀ v, (p.getPhase1 now).1 = Phase1.ready (Except.ok v) → ∃ c, v = GoValue.client c) := by
  have hev : idleAllClients (evictExpired p now) := idleAllClients_evict p now h
  unfold PoolState.getPhase1
  split
  · constructor
    · exact h
    · intro v hv
      simp at hv
  · split
    · next entry rest heq =>
      have hm : entry ∈ p.idle := by
        refine List.mem_of_mem_filter (?_ : entry ∈ liveIdle p now)
        rw [heq]
        exact List.mem_cons_self _ _
      constructor
      · intro e he
        refine hev e ?_
        show e ∈ liveIdle p now
        rw [heq]
        exact List.mem_cons_of_mem _ (he : e ∈ rest)
      · intro v hv
        have hv2 : entry.1 = v := by simpa using hv
        obtain ⟨c, hc⟩ := h entry hm
        exact ⟨c, hv2 ▸ hc⟩
    · split <;>
      · constructor
        · exact hev
        · intro v hv
          simp at hv

theorem getPhase2_clients (p : PoolState) (fr : Except Err GoValue)
    (hp : idleAllClients p)
    (hfr : ∀ v, fr = .ok v → ∃ c, v = GoValue.client c) :
    idleAllClients ((p.getPhase2 fr).2) ∧
    (∀ v, (p.getPhase2 fr).1 = .ok v → ∃ c, v = GoValue.client c) := by
  unfold PoolState.getPhase2
  cases fr with
  | error e =>
    constructor
    · exact hp
    · intro v hv
      simp at hv
  | ok w =>
    constructor
    · exact hp
    · intro v hv
      have hw : w = v := by simpa using hv
      exact hw ▸ hfr w rfl

theorem put_clients (p : PoolState) (c : IpmiClient) (now : Nat) (hp : idleAllClients p) :
    idleAllClients (p.put (GoValue.client c) now) := by
  unfold PoolState.put
  split
  · exact hp
  · split
    · exact hp
    · intro e he
      rcases List.mem_append.mp (he : e ∈ p.idle ++ [(GoValue.client c, now + p.idleTimeout)])
        with h1 | h1
      · exact hp e h1
      · have h2 : e = (GoValue.client c, now + p.idleTimeout) := List.mem_singleton.mp h1
        exact ⟨c, by rw [h2]⟩

theorem poolsWellTyped_setPool (pools : List (String × PoolState)) (h : String)
    (p : PoolState) (hw : poolsWellTyped pools) (hp : idleAllClients p) :
    poolsWellTyped (setPool pools h p) := by
  intro e he
  unfold setPool at he
  rcases List.mem_map.mp he with ⟨e0, he0, heq⟩
  by_cases hc : e0.1 = h
  · rw [if_pos hc] at heq
    rw [← heq]
    exact hp
  · rw [if_neg hc] at heq
    rw [← heq]
    exact hw e0 he0

theorem assocLookup_mem {α : Type} (l : List (String × α)) (k : String) (v : α)
    (h : assocLookup l k = some v) : (k, v) ∈ l := by
  induction l with
  | nil => cases h
  | cons e rest ih =>
    obtain ⟨a, b⟩ := e
    by_cases hak : a = k
    · subst hak
      have hb : b = v := by simpa [assocLookup] using h
      rw [hb]
      exact List.mem_cons_self _ _
    · simp only [assocLookup, if_neg hak] at h
      exact List.mem_cons_of_mem _ (ih h)

theorem lookupOrCreate_clients (pools : List (String × PoolState)) (h : String)
    (hw : poolsWellTyped pools) :
    idleAllClients (lookupOrCreate pools h).1 ∧
    poolsWellTyped (lookupOrCreate pools h).2.1 := by
  unfold lookupOrCreate
  cases hl : assocLookup pools h with
  | none =>
    constructor
    · intro e he
      cases he
    · intro e he
      rcases List.mem_cons.mp he with h1 | h1
      · rw [h1]
        intro e2 he2
        cases he2
      · exact hw e h1
  | some p =>
    exact ⟨hw (h, p) (assocLookup_mem pools h p hl), hw⟩

theorem Get_wellTyped (env : IpmiEnv) (cs : ClientSet) (hostname : String) (now : Nat)
    (hw : poolsWellTyped cs.pools) :
    (ClientSet.Get env cs hostname now).1 ≠ RegOutcome.panicked ∧
    poolsWellTyped ((ClientSet.Get env cs hostname now).2).pools := by
  obtain ⟨hpc, hpw⟩ := lookupOrCreate_clients cs.pools hostname hw
  have hph1 := getPhase1_clients (lookupOrCreate cs.pools hostname).1 now hpc
  unfold ClientSet.Get
  cases hph : ((lookupOrCreate cs.pools hostname).1).getPhase1 now with
  | mk ph1 p1 =>
    rw [hph] at hph1
    dsimp only at hph1
    cases ph1 with
    | ready r =>
      constructor
      · cases r with
        | error e => simp [outcomeOf]
        | ok v =>
          obtain ⟨c, hc⟩ := hph1.2 v rfl
          simp [outcomeOf, hc, castClient]
      · exact poolsWellTyped_setPool _ _ _ hpw hph1.1
    | needFactory =>
      have hph2 := getPhase2_clients p1 (clientFactory env cs.cfg hostname) hph1.1
        (fun v hv => clientFactory_ok_client env cs.cfg hostname v hv)
      constructor
      · cases hr2 : (p1.getPhase2 (clientFactory env cs.cfg hostname)).1 with
        | error e => simp [outcomeOf, hr2]
        | ok v =>
          obtain ⟨c, hc⟩ := hph2.2 v hr2
          simp [outcomeOf, hr2, hc, castClient]
      · exact poolsWellTyped_setPool _ _ _ hpw hph2.1

theorem Put_wellTyped (cs : ClientSet) (handle : ClientHandle) (now : Nat)
    (hw : poolsWellTyped cs.pools) : poolsWellTyped (cs.Put handle now).pools := by
  unfold ClientSet.Put
  cases hl : assocLookup cs.pools handle.poolHost with
  | none => exact hw
  | some p =>
    exact poolsWellTyped_setPool _ _ _ hw
      (put_clients p handle.client now (hw _ (assocLookup_mem _ _ _ hl)))

theorem runCS_wellTyped (env : IpmiEnv) (ops : List CSOp) (cs : ClientSet)
    (hw : poolsWellTyped cs.pools) : poolsWellTyped (runCS env cs ops).pools := by
  induction ops generalizing cs with
  | nil => exact hw
  | cons op ops ih =>
    cases op with
    | get hostname now => exact ih _ (Get_wellTyped env cs hostname now hw).2
    | put handle now => exact ih _ (Put_wellTyped cs handle now hw)

/-- C10: starting from a fresh registry and applying any sequence of Get/Put
operations, a further Get never reaches the failure branch of the
`v.(*ipmi.Client)` type assertion (src/pool.go line 83): every value the
factory returns without error is a client, pools only ever hold
factory-produced or released client values, so Get's success branch is
total. -/
theorem c10_type_assertion_never_panics (cfg : Config) (envRun envGet : IpmiEnv)
    (ops : List CSOp) (hostname : String) (now : Nat) :
    (ClientSet.Get envGet (runCS envRun (NewClientSet cfg) ops) hostname now).1 ≠
      RegOutcome.panicked := by
  have h0 : poolsWellTyped (NewClientSet cfg).pools := by
    intro e he
    cases he
  exact (Get_wellTyped envGet _ hostname now (runCS_wellTyped envRun ops _ h0)).1

end DatacenterPool
